import Mathlib

/-!
Verification of the news-aggregation core of the adam-sandler-news-agent
repository.  The Python sources are shallowly embedded as executable Lean
definitions: strings are Lean strings (code-point lists), datetimes are a
record of calendar fields, dictionaries are association lists, exceptions
are `Except`, and `None`-returning fallible helpers are `Option`.
-/

/-- Model of a Python `datetime` restricted to the fields the program
formats or compares (year, month, day, hour, minute, second). -/
structure PyDateTime where
  year : Nat
  month : Nat
  day : Nat
  hour : Nat
  minute : Nat
  second : Nat
deriving DecidableEq, Repr

/-- Model of Python `str.strip()` on the code-point list of a string:
drop whitespace from the left, then from the right. -/
def pyStrip (l : List Char) : List Char :=
  ((l.dropWhile Char.isWhitespace).reverse.dropWhile Char.isWhitespace).reverse

/-- Embedding of the `News` dataclass (src/domain/entities/news.py):
title, content, url, source, published_date, optional author / summary /
ai_analysis (the analysis dictionary is modelled as an association list). -/
structure News where
  title : String
  content : String
  url : String
  source : String
  published_date : PyDateTime
  author : Option String
  summary : Option String
  ai_analysis : Option (List (String × String))
deriving DecidableEq, Repr

/-- Embedding of `News.__post_init__`: construction raises `ValueError`
(modelled as `Except.error`) when any of title, content, url, source is
empty after stripping whitespace; otherwise the record is built with the
given fields. -/
def mkNews (title content url source : String) (published_date : PyDateTime)
    (author summary : Option String) (ai_analysis : Option (List (String × String))) :
    Except String News :=
  if (pyStrip title.data).isEmpty then
    Except.error "Título da notícia não pode estar vazio"
  else if (pyStrip content.data).isEmpty then
    Except.error "Conteúdo da notícia não pode estar vazio"
  else if (pyStrip url.data).isEmpty then
    Except.error "URL da notícia não pode estar vazia"
  else if (pyStrip source.data).isEmpty then
    Except.error "Fonte da notícia não pode estar vazia"
  else
    Except.ok ⟨title, content, url, source, published_date, author, summary, ai_analysis⟩

/-- Embedding of `News.is_relevant_to_adam_sandler`
(src/domain/entities/news.py): the keyword test is commented out in the
source and the method returns `True` unconditionally. -/
def News.is_relevant_to_adam_sandler (_ : News) : Bool := true

/-- The relevance-filtering list comprehension used by the report service
and the news-aggregator use case:
`[news for news in news_list if news.is_relevant_to_adam_sandler()]`. -/
def relevant_news_filter (l : List News) : List News :=
  l.filter News.is_relevant_to_adam_sandler

/-- Generic first-occurrence deduplication loop with an explicit set of
already-seen keys (the Python `seen_urls` set is modelled as the list of
keys inserted so far). -/
def dedupKeyGo {β κ : Type} [DecidableEq κ] (key : β → κ) :
    List κ → List β → List β
  | _, [] => []
  | seen, b :: rest =>
      if key b ∈ seen then dedupKeyGo key seen rest
      else b :: dedupKeyGo key (key b :: seen) rest

/-- The URL-based deduplication loop of
`WebScrapingNewsRepository.fetch_all_adam_sandler_news`: walk the
accumulated list, keep a record only if its URL was not seen before. -/
def dedupByUrl (l : List News) : List News := dedupKeyGo News.url [] l

/-- The per-source accumulation loop shared by `search_news` and
`fetch_all_adam_sandler_news`: each configured source either returns a
list of records (`Except.ok`) or raises (`Except.error`, caught and
skipped, the loop continues with the next source). -/
def collectSourceResults (rs : List (Except String (List News))) : List News :=
  rs.foldl (fun acc r => match r with
    | Except.ok l => acc ++ l
    | Except.error _ => acc) []

/-- Embedding of `WebScrapingNewsRepository.fetch_all_adam_sandler_news`:
concatenate the per-source results in source order, then deduplicate by
URL keeping first occurrences. -/
def fetch_all_adam_sandler_news (rs : List (Except String (List News))) : List News :=
  dedupByUrl (collectSourceResults rs)

/-- Embedding of `WebScrapingNewsRepository.search_news`: concatenate the
per-source results in source order (no deduplication on this path). -/
def search_news (rs : List (Except String (List News))) (_query : String) : List News :=
  collectSourceResults rs

/-- Embedding of `WebScrapingNewsRepository.get_latest_news`: the body is
`return await self.search_news("Adam Sandler")`; the `limit` parameter is
never read. -/
def get_latest_news (rs : List (Except String (List News))) (_limit : Nat) : List News :=
  search_news rs "Adam Sandler"

/-- The deduplication loop only ever removes elements: its output is a
sublist (order-preserving selection) of its input. -/
theorem dedupKeyGo_sublist {β κ : Type} [DecidableEq κ] (key : β → κ)
    (seen : List κ) (l : List β) : (dedupKeyGo key seen l).Sublist l := by
  induction l generalizing seen with
  | nil => exact List.Sublist.refl _
  | cons b rest ih =>
    simp only [dedupKeyGo]
    by_cases h : key b ∈ seen
    · rw [if_pos h]; exact (ih seen).cons b
    · rw [if_neg h]; exact (ih (key b :: seen)).cons₂ b

/-- Every element kept by the deduplication loop comes from the input and
has a key that was not in the initial seen set. -/
theorem mem_dedupKeyGo {β κ : Type} [DecidableEq κ] (key : β → κ)
    (seen : List κ) (l : List β) (b : β) (hb : b ∈ dedupKeyGo key seen l) :
    b ∈ l ∧ key b ∉ seen := by
  induction l generalizing seen with
  | nil => simp [dedupKeyGo] at hb
  | cons a rest ih =>
    simp only [dedupKeyGo] at hb
    by_cases h : key a ∈ seen
    · rw [if_pos h] at hb
      obtain ⟨h1, h2⟩ := ih seen hb
      exact ⟨List.mem_cons_of_mem a h1, h2⟩
    · rw [if_neg h] at hb
      rcases List.mem_cons.mp hb with rfl | hb2
      · exact ⟨List.mem_cons_self _ _, h⟩
      · obtain ⟨h1, h2⟩ := ih (key a :: seen) hb2
        exact ⟨List.mem_cons_of_mem a h1,
          fun hc => h2 (List.mem_cons_of_mem _ hc)⟩

/-- The keys of the deduplicated output contain no duplicates. -/
theorem dedupKeyGo_keys_nodup {β κ : Type} [DecidableEq κ] (key : β → κ)
    (seen : List κ) (l : List β) : ((dedupKeyGo key seen l).map key).Nodup := by
  induction l generalizing seen with
  | nil => simp [dedupKeyGo]
  | cons a rest ih =>
    simp only [dedupKeyGo]
    by_cases h : key a ∈ seen
    · rw [if_pos h]; exact ih seen
    · rw [if_neg h]
      simp only [List.map_cons, List.nodup_cons]
      refine ⟨fun hc => ?_, ih (key a :: seen)⟩
      obtain ⟨b, hb, hkb⟩ := List.mem_map.mp hc
      have h2 := (mem_dedupKeyGo key (key a :: seen) rest b hb).2
      exact h2 (by rw [hkb]; exact List.mem_cons_self _ _)

/-- Deduplication does not lose keys: for a key outside the seen set,
membership among the output keys coincides with membership among the
input keys. -/
theorem mem_keys_dedupKeyGo {β κ : Type} [DecidableEq κ] (key : β → κ)
    (seen : List κ) (l : List β) (u : κ) (hu : u ∉ seen) :
    u ∈ (dedupKeyGo key seen l).map key ↔ u ∈ l.map key := by
  induction l generalizing seen with
  | nil => simp [dedupKeyGo]
  | cons a rest ih =>
    simp only [dedupKeyGo]
    by_cases h : key a ∈ seen
    · rw [if_pos h, ih seen hu, List.map_cons, List.mem_cons]
      constructor
      · exact Or.inr
      · rintro (rfl | hr)
        · exact absurd h hu
        · exact hr
    · rw [if_neg h]
      simp only [List.map_cons, List.mem_cons]
      by_cases hua : u = key a
      · subst hua; simp
      · have hu2 : u ∉ key a :: seen := by
          intro hc
          rcases List.mem_cons.mp hc with hc1 | hc2
          · exact hua hc1
          · exact hu hc2
        rw [ih (key a :: seen) hu2]

/-- Each survivor of the deduplication loop is the first element of the
input that carries its key. -/
theorem dedupKeyGo_find {β κ : Type} [DecidableEq κ] (key : β → κ)
    (seen : List κ) (l : List β) (b : β) (hb : b ∈ dedupKeyGo key seen l) :
    l.find? (fun m => decide (key m = key b)) = some b := by
  induction l generalizing seen with
  | nil => simp [dedupKeyGo] at hb
  | cons a rest ih =>
    simp only [dedupKeyGo] at hb
    by_cases h : key a ∈ seen
    · rw [if_pos h] at hb
      have h2 := (mem_dedupKeyGo key seen rest b hb).2
      have hne : ¬(key a = key b) := fun hc => h2 (hc ▸ h)
      rw [List.find?_cons_of_neg _ (by simp [hne])]
      exact ih seen hb
    · rw [if_neg h] at hb
      rcases List.mem_cons.mp hb with rfl | hb2
      · rw [List.find?_cons_of_pos _ (by simp)]
      · have h2 := (mem_dedupKeyGo key (key a :: seen) rest b hb2).2
        have hne : ¬(key a = key b) := fun hc =>
          h2 (by rw [← hc]; exact List.mem_cons_self _ _)
        rw [List.find?_cons_of_neg _ (by simp [hne])]
        exact ih (key a :: seen) hb2

/-- Claim C1: the output of `fetch_all_adam_sandler_news` contains each
distinct canonical URL exactly once; the surviving record for each URL is
the first occurrence in source-then-discovery order of the concatenated
per-source results, and the survivors keep their first-seen relative
order (the output is an order-preserving sublist of the input). -/
theorem fetch_all_dedup_spec (rs : List (Except String (List News))) :
    ((fetch_all_adam_sandler_news rs).map News.url).Nodup ∧
    (∀ u, u ∈ (collectSourceResults rs).map News.url ↔
       u ∈ (fetch_all_adam_sandler_news rs).map News.url) ∧
    (fetch_all_adam_sandler_news rs).Sublist (collectSourceResults rs) ∧
    (∀ n, n ∈ fetch_all_adam_sandler_news rs →
       (collectSourceResults rs).find? (fun m => decide (m.url = n.url)) = some n) := by
  refine ⟨dedupKeyGo_keys_nodup News.url [] _,
    fun u => (mem_keys_dedupKeyGo News.url [] _ u (by simp)).symm,
    dedupKeyGo_sublist News.url [] _,
    fun n hn => dedupKeyGo_find News.url [] _ n hn⟩

/-- Sample record used to instantiate quantified theorems. -/
def newsA : News :=
  ⟨"Adam Sandler wins award", "He won an award.", "https://example.com/a",
    "BBC News", ⟨2024, 1, 2, 3, 4, 5⟩, none, none, none⟩

/-- Sample record with a distinct URL. -/
def newsB : News :=
  ⟨"Adam Sandler on tour", "He is on tour now.", "https://example.com/b",
    "BBC News", ⟨2024, 1, 2, 3, 4, 5⟩, none, none, none⟩

/-- Sample record sharing its URL with `newsA`. -/
def newsA2 : News :=
  ⟨"Duplicate story", "Same URL as the first record.", "https://example.com/a",
    "Other Source", ⟨2024, 2, 3, 4, 5, 6⟩, none, none, none⟩

/-- Witness for Claim C1 at a concrete two-source input containing a
duplicated URL: the record kept for the duplicated URL is the first
occurrence in the concatenated input. -/
theorem fetch_all_dedup_spec_witness :
    (collectSourceResults [Except.ok [newsA, newsB], Except.ok [newsA2]]).find?
      (fun m => decide (m.url = newsB.url)) = some newsB :=
  (fetch_all_dedup_spec [Except.ok [newsA, newsB], Except.ok [newsA2]]).2.2.2
    newsB (by decide)

/-- Stripping yields the empty list exactly when every character of the
input is whitespace (in particular, when the input is empty). -/
theorem pyStrip_eq_nil_iff (l : List Char) :
    pyStrip l = [] ↔ ∀ c ∈ l, c.isWhitespace := by
  unfold pyStrip
  constructor
  · intro h c hc
    have h1 : (l.dropWhile Char.isWhitespace).reverse.dropWhile Char.isWhitespace = [] := by
      simpa using congrArg List.reverse h
    have h3 : ∀ c ∈ l.dropWhile Char.isWhitespace, Char.isWhitespace c := by
      intro c hc2
      exact List.dropWhile_eq_nil_iff.mp h1 c (List.mem_reverse.mpr hc2)
    have hsplit := List.takeWhile_append_dropWhile (p := Char.isWhitespace) (l := l)
    rw [← hsplit] at hc
    rcases List.mem_append.mp hc with h4 | h4
    · exact List.mem_takeWhile_imp h4
    · exact h3 c h4
  · intro h
    have hnil : l.dropWhile Char.isWhitespace = [] :=
      List.dropWhile_eq_nil_iff.mpr fun c hc => h c hc
    simp [hnil]

/-- Construction of a `News` record errors exactly when one of the four
required fields strips to the empty string. -/
theorem mkNews_error_iff (t c u s : String) (d : PyDateTime)
    (a sm : Option String) (ai : Option (List (String × String))) :
    (∃ e, mkNews t c u s d a sm ai = Except.error e) ↔
      ((pyStrip t.data).isEmpty || (pyStrip c.data).isEmpty ||
       (pyStrip u.data).isEmpty || (pyStrip s.data).isEmpty) = true := by
  unfold mkNews
  by_cases h1 : (pyStrip t.data).isEmpty = true <;>
  by_cases h2 : (pyStrip c.data).isEmpty = true <;>
  by_cases h3 : (pyStrip u.data).isEmpty = true <;>
  by_cases h4 : (pyStrip s.data).isEmpty = true <;>
  simp [h1, h2, h3, h4]

/-- Claim C3: constructing an Item Record fails with a validation error
if and only if at least one of title, body, URL, source consists only of
whitespace (equivalently, is empty or whitespace-only); when every
required field contains some non-whitespace character, construction
succeeds and the record holds the given fields unchanged. -/
theorem news_validation_spec (t c u s : String) (d : PyDateTime)
    (a sm : Option String) (ai : Option (List (String × String))) :
    ((∃ e, mkNews t c u s d a sm ai = Except.error e) ↔
      ((∀ ch ∈ t.data, ch.isWhitespace) ∨ (∀ ch ∈ c.data, ch.isWhitespace) ∨
       (∀ ch ∈ u.data, ch.isWhitespace) ∨ (∀ ch ∈ s.data, ch.isWhitespace))) ∧
    (¬((∀ ch ∈ t.data, ch.isWhitespace) ∨ (∀ ch ∈ c.data, ch.isWhitespace) ∨
       (∀ ch ∈ u.data, ch.isWhitespace) ∨ (∀ ch ∈ s.data, ch.isWhitespace)) →
      mkNews t c u s d a sm ai = Except.ok ⟨t, c, u, s, d, a, sm, ai⟩) := by
  have hiff : ∀ x : String, (pyStrip x.data).isEmpty = true ↔ ∀ ch ∈ x.data, ch.isWhitespace := by
    intro x
    rw [List.isEmpty_iff]
    exact pyStrip_eq_nil_iff _
  constructor
  · rw [mkNews_error_iff]
    simp only [Bool.or_eq_true]
    rw [hiff t, hiff c, hiff u, hiff s]
    tauto
  · intro hno
    have e1 : (pyStrip t.data).isEmpty = false := by
      cases h : (pyStrip t.data).isEmpty
      · rfl
      · exact absurd (Or.inl ((hiff t).mp h)) hno
    have e2 : (pyStrip c.data).isEmpty = false := by
      cases h : (pyStrip c.data).isEmpty
      · rfl
      · exact absurd (Or.inr (Or.inl ((hiff c).mp h))) hno
    have e3 : (pyStrip u.data).isEmpty = false := by
      cases h : (pyStrip u.data).isEmpty
      · rfl
      · exact absurd (Or.inr (Or.inr (Or.inl ((hiff u).mp h)))) hno
    have e4 : (pyStrip s.data).isEmpty = false := by
      cases h : (pyStrip s.data).isEmpty
      · rfl
      · exact absurd (Or.inr (Or.inr (Or.inr ((hiff s).mp h)))) hno
    simp [mkNews, e1, e2, e3, e4]

/-- Witness for Claim C3: all-non-blank fields construct successfully and
unchanged at a concrete input. -/
theorem news_validation_spec_witness :
    mkNews "A title" "A body." "https://example.com/a" "BBC News"
      ⟨2024, 1, 2, 3, 4, 5⟩ none none none =
      Except.ok ⟨"A title", "A body.", "https://example.com/a", "BBC News",
        ⟨2024, 1, 2, 3, 4, 5⟩, none, none, none⟩ :=
  (news_validation_spec "A title" "A body." "https://example.com/a" "BBC News"
    ⟨2024, 1, 2, 3, 4, 5⟩ none none none).2 (by decide)

/-- Claim C9: the relevance predicate returns `True` on every record, so
the relevance-filtering list comprehension used by the report service and
the use case keeps every item: relevance filtering is a no-op. -/
theorem relevance_filter_noop :
    (∀ n : News, n.is_relevant_to_adam_sandler = true) ∧
    (∀ l : List News, relevant_news_filter l = l) := by
  refine ⟨fun n => rfl, fun l => ?_⟩
  simp [relevant_news_filter, News.is_relevant_to_adam_sandler]

/-- Claim C10: `get_latest_news` ignores its `limit` argument entirely;
for any two limits the results coincide, and both equal
`search_news "Adam Sandler"` on the same source responses. -/
theorem get_latest_news_ignores_limit
    (rs : List (Except String (List News))) (limit1 limit2 : Nat) :
    get_latest_news rs limit1 = search_news rs "Adam Sandler" ∧
    get_latest_news rs limit1 = get_latest_news rs limit2 :=
  ⟨rfl, rfl⟩

/-- Embedding of the `Report` dataclass (src/domain/entities/report.py):
title, generation timestamp, list of news, free-text summary, metadata
dictionary (modelled as an association list). -/
structure Report where
  title : String
  generated_at : PyDateTime
  news_list : List News
  summary : String
  metadata : List (String × String)
deriving DecidableEq, Repr

/-- Embedding of `Report.add_news` acting on the report item list:
append the record only when no structurally equal record is present. -/
def add_news (l : List News) (n : News) : List News :=
  if n ∈ l then l else l ++ [n]

/-- Embedding of `Report.add_multiple_news`: add each record in order
through `add_news`. -/
def add_multiple_news (l : List News) (ns : List News) : List News :=
  ns.foldl add_news l

/-- The deduplication loop only consults the seen set through
membership, so extensionally equal seen sets give equal outputs. -/
theorem dedupKeyGo_congr_seen {β κ : Type} [DecidableEq κ] (key : β → κ)
    (seen1 seen2 : List κ) (h : ∀ x, x ∈ seen1 ↔ x ∈ seen2) (l : List β) :
    dedupKeyGo key seen1 l = dedupKeyGo key seen2 l := by
  induction l generalizing seen1 seen2 with
  | nil => rfl
  | cons b rest ih =>
    simp only [dedupKeyGo]
    by_cases hb : key b ∈ seen1
    · rw [if_pos hb, if_pos ((h _).mp hb)]
      exact ih seen1 seen2 h
    · rw [if_neg hb, if_neg (fun hc => hb ((h _).mpr hc))]
      rw [ih (key b :: seen1) (key b :: seen2) (by intro x; simp [h x])]

/-- Adding a batch equals keeping the old list and appending, in
first-occurrence order, those incoming records not already present. -/
theorem add_multiple_news_eq (l ns : List News) :
    add_multiple_news l ns = l ++ dedupKeyGo (id : News → News) l ns := by
  induction ns generalizing l with
  | nil => simp [add_multiple_news, dedupKeyGo]
  | cons n rest ih =>
    show add_multiple_news (add_news l n) rest = _
    by_cases hn : n ∈ l
    · rw [show add_news l n = l from if_pos hn]
      rw [ih l]
      simp only [dedupKeyGo]
      rw [if_pos (show (id : News → News) n ∈ l from hn)]
    · rw [show add_news l n = l ++ [n] from if_neg hn]
      rw [ih (l ++ [n])]
      simp only [dedupKeyGo]
      rw [if_neg (show (id : News → News) n ∉ l from hn)]
      rw [dedupKeyGo_congr_seen (id : News → News) (l ++ [n]) (n :: l)
        (by intro x; simp [or_comm]) rest]
      simp

/-- Claim C6: report item lists never hold two structurally equal
records: adding a record already present leaves the list unchanged; a
bulk add equals the old list followed by the not-yet-present incoming
records in first-occurrence order (an order-preserving sublist of the
batch); membership is the union; and bulk adds preserve freedom from
duplicates. -/
theorem report_add_news_spec (l ns : List News) (n : News) :
    (n ∈ l → add_news l n = l) ∧
    (add_multiple_news l ns = l ++ dedupKeyGo (id : News → News) l ns) ∧
    (dedupKeyGo (id : News → News) l ns).Sublist ns ∧
    (∀ m, m ∈ add_multiple_news l ns ↔ m ∈ l ∨ m ∈ ns) ∧
    (l.Nodup → (add_multiple_news l ns).Nodup) := by
  refine ⟨fun hn => if_pos hn, add_multiple_news_eq l ns,
    dedupKeyGo_sublist _ l ns, fun m => ?_, fun hnd => ?_⟩
  · rw [add_multiple_news_eq, List.mem_append]
    constructor
    · rintro (hm | hm)
      · exact Or.inl hm
      · exact Or.inr (mem_dedupKeyGo _ l ns m hm).1
    · rintro (hm | hm)
      · exact Or.inl hm
      · by_cases hml : m ∈ l
        · exact Or.inl hml
        · refine Or.inr ?_
          have := (mem_keys_dedupKeyGo (id : News → News) l ns m hml).mpr
          simpa using this (by simpa using hm)
  · rw [add_multiple_news_eq]
    rw [List.nodup_append]
    refine ⟨hnd, ?_, ?_⟩
    · have := dedupKeyGo_keys_nodup (id : News → News) l ns
      simpa using this
    · intro a ha hc
      exact (mem_dedupKeyGo (id : News → News) l ns a hc).2 ha

/-- Witness for Claim C6: adding a record structurally equal to one
already present leaves a concrete report item list unchanged. -/
theorem report_add_news_spec_witness :
    add_news [newsA, newsB] newsA = [newsA, newsB] :=
  (report_add_news_spec [newsA, newsB] [] newsA).1 (by decide)

/-- Two-digit zero padding, as Python strftime does for day, month, hour
and minute fields. -/
def pad2 (n : Nat) : String :=
  if n < 10 then "0" ++ toString n else toString n

/-- Four-digit zero padding, as Python strftime does for the year. -/
def pad4 (n : Nat) : String :=
  if n < 10 then "000" ++ toString n
  else if n < 100 then "00" ++ toString n
  else if n < 1000 then "0" ++ toString n
  else toString n

/-- Model of Python `strftime('%d/%m/%Y')`. -/
def strftime_ddmmyyyy (d : PyDateTime) : String :=
  pad2 d.day ++ "/" ++ pad2 d.month ++ "/" ++ pad4 d.year

/-- Model of the report timestamp format `strftime('%d/%m/%Y às %H:%M')`. -/
def strftime_full (d : PyDateTime) : String :=
  strftime_ddmmyyyy d ++ " às " ++ pad2 d.hour ++ ":" ++ pad2 d.minute

/-- One step of the per-source counting dictionary of
`Report.get_sources_summary`: Python dictionaries keep insertion order,
so incrementing an existing key keeps its position and a new key is
appended. -/
def bumpSource : List (String × Nat) → String → List (String × Nat)
  | [], s => [(s, 1)]
  | (k, v) :: rest, s =>
      if k = s then (k, v + 1) :: rest else (k, v) :: bumpSource rest s

/-- Embedding of `Report.get_sources_summary`: fold the counting step
over the item list. -/
def get_sources_summary (l : List News) : List (String × Nat) :=
  l.foldl (fun acc n => bumpSource acc n.source) []

/-- The text block one loop iteration of `Report.generate_summary`
appends for the i-th listed item. -/
def entryText (i : Nat) (n : News) : String :=
  "\n" ++ toString i ++ ". " ++ n.title ++ "\n   Fonte: " ++ n.source ++
  "\n   Data: " ++ strftime_ddmmyyyy n.published_date ++ "\n   URL: " ++ n.url ++ "\n"

/-- The enumeration loop of `Report.generate_summary` over the first
five items, with the accumulated summary string made explicit. -/
def summaryEntriesLoop : Nat → List News → String → String
  | _, [], acc => acc
  | i, n :: rest, acc => summaryEntriesLoop (i + 1) rest (acc ++ entryText i n)

/-- Declarative form of the listed-entries block: the entry texts of the
items in order, numbered from i. -/
def entriesText : Nat → List News → String
  | _, [] => ""
  | i, n :: rest => entryText i n ++ entriesText (i + 1) rest

/-- The header block of a non-empty report summary (title line,
timestamp, total count, per-source breakdown). -/
def reportHeader (r : Report) : String :=
  "\nRelatório de Notícias sobre Adam Sandler\nGerado em: " ++
  strftime_full r.generated_at ++
  "\n\nTotal de notícias encontradas: " ++ toString r.news_list.length ++
  "\nFontes consultadas: " ++
  String.intercalate ", "
    ((get_sources_summary r.news_list).map (fun p => p.1 ++ ": " ++ toString p.2)) ++
  "\n\nPrincipais notícias:\n"

/-- Embedding of `Report.generate_summary`: fixed sentence for an empty
item list; otherwise header, the first five items, and a trailing
"e mais N" line when more than five items exist. -/
def Report.generate_summary (r : Report) : String :=
  if r.news_list.isEmpty then "Nenhuma notícia encontrada sobre Adam Sandler."
  else
    let base := summaryEntriesLoop 1 (r.news_list.take 5) (reportHeader r)
    if 5 < r.news_list.length then
      base ++ "\n... e mais " ++ toString (r.news_list.length - 5) ++ " notícias."
    else base

/-- String append is associative (on the underlying code-point lists). -/
theorem str_append_assoc (a b c : String) : a ++ b ++ c = a ++ (b ++ c) :=
  String.ext (List.append_assoc a.data b.data c.data)

/-- Unfolding the enumeration loop: it appends the declarative
entries block to the accumulator. -/
theorem summaryEntriesLoop_eq (l : List News) :
    ∀ (i : Nat) (acc : String),
      summaryEntriesLoop i l acc = acc ++ entriesText i l := by
  induction l with
  | nil =>
    intro i acc
    show acc = acc ++ ""
    exact (String.ext (List.append_nil acc.data)).symm
  | cons n rest ih =>
    intro i acc
    show summaryEntriesLoop (i + 1) rest (acc ++ entryText i n) = _
    rw [ih (i + 1) (acc ++ entryText i n), str_append_assoc]
    rfl

/-- Claim C7: the summary of a report with an empty item list is the
fixed "no results" sentence, whatever the title, timestamp, stored
summary and metadata are. -/
theorem report_empty_summary (r : Report) (h : r.news_list = []) :
    r.generate_summary = "Nenhuma notícia encontrada sobre Adam Sandler." := by
  unfold Report.generate_summary
  rw [h]
  rfl

/-- Witness for Claim C7 at a concrete empty report. -/
theorem report_empty_summary_witness :
    (Report.mk "Some title" ⟨2024, 5, 6, 7, 8, 9⟩ [] "" []).generate_summary =
      "Nenhuma notícia encontrada sobre Adam Sandler." :=
  report_empty_summary (Report.mk "Some title" ⟨2024, 5, 6, 7, 8, 9⟩ [] "" []) rfl

/-- Grouping lemma for comparing appended string literals behind a
common unknown prefix. -/
theorem string_append_group (y a b c d : String) (h : a ++ b ++ c = d) :
    y ++ a ++ b ++ c = y ++ d := by
  rw [str_append_assoc, str_append_assoc, ← str_append_assoc a b c, h]

/-- Claim C8: a report with more than five items lists exactly the first
five (in stored order, each entry with title, source, formatted date and
URL) followed by a trailing line whose count is the total minus five; in
particular with exactly seven items the trailing line reads
"... e mais 2 notícias.". -/
theorem report_summary_truncation (r : Report) :
    (5 < r.news_list.length →
      r.generate_summary = reportHeader r ++ entriesText 1 (r.news_list.take 5) ++
        "\n... e mais " ++ toString (r.news_list.length - 5) ++ " notícias.") ∧
    (r.news_list.length = 7 →
      r.generate_summary = reportHeader r ++ entriesText 1 (r.news_list.take 5) ++
        "\n... e mais 2 notícias.") := by
  have hpart : 5 < r.news_list.length →
      r.generate_summary = reportHeader r ++ entriesText 1 (r.news_list.take 5) ++
        "\n... e mais " ++ toString (r.news_list.length - 5) ++ " notícias." := by
    intro h5
    have hne : r.news_list.isEmpty = false := by
      cases hl : r.news_list
      · rw [hl] at h5; simp at h5
      · rfl
    unfold Report.generate_summary
    rw [hne]
    show (if 5 < r.news_list.length then _ else _) = _
    rw [if_pos h5, summaryEntriesLoop_eq]
  refine ⟨hpart, fun h7 => ?_⟩
  have h5 : 5 < r.news_list.length := by rw [h7]; norm_num
  rw [hpart h5, h7]
  exact string_append_group _ _ _ _ _ rfl

/-- Sample record number i, used to build a concrete seven-item report. -/
def sampleNews (i : Nat) : News :=
  ⟨"Title " ++ toString i, "Body " ++ toString i ++ ".",
    "https://example.com/" ++ toString i, "BBC News",
    ⟨2024, 3, 4, 5, 6, 7⟩, none, none, none⟩

/-- A concrete report holding exactly seven items. -/
def sampleReport7 : Report :=
  ⟨"Seven items", ⟨2024, 3, 4, 5, 6, 7⟩, (List.range 7).map sampleNews, "", []⟩

/-- Witness for Claim C8: the concrete seven-item report summary is the
header, the first five entries, and the literal trailing line
"... e mais 2 notícias.". -/
theorem report_summary_truncation_witness :
    sampleReport7.generate_summary =
      reportHeader sampleReport7 ++ entriesText 1 (sampleReport7.news_list.take 5) ++
        "\n... e mais 2 notícias." :=
  (report_summary_truncation sampleReport7).2 rfl

/-- Model of Python `content.split('. ')` on code-point lists: cut at
each leftmost non-overlapping occurrence of period-space; the separator
is not part of any piece. -/
def splitDotSpace : List Char → List (List Char)
  | '.' :: ' ' :: rest => [] :: splitDotSpace rest
  | c :: rest =>
      match splitDotSpace rest with
      | [] => [[c]]
      | piece :: pieces => (c :: piece) :: pieces
  | [] => [[]]

/-- The sentence-accumulation loop of `News.generate_summary`: append a
sentence (followed by period-space) while the check
`len(summary + sentence) <= max_length` passes, stop at the first
failure. -/
def summaryBuildLoop (maxLength : Nat) : List (List Char) → List Char → List Char
  | [], acc => acc
  | s :: rest, acc =>
      if (acc ++ s).length ≤ maxLength then
        summaryBuildLoop maxLength rest (acc ++ s ++ ['.', ' '])
      else acc

/-- Embedding of `News.generate_summary` on code-point lists: return the
body verbatim when it fits, otherwise accumulate leading sentences and
strip the result. -/
def generate_summary_chars (content : List Char) (maxLength : Nat) : List Char :=
  if content.length ≤ maxLength then content
  else pyStrip (summaryBuildLoop maxLength (splitDotSpace content) [])

/-- Embedding of `News.generate_summary` at the string level. -/
def News.generate_summary (n : News) (maxLength : Nat) : String :=
  ⟨generate_summary_chars n.content.data maxLength⟩

/-- Record used to refute the as-stated bounded-summary claim. -/
def cexNews : News :=
  ⟨"T", "abc. def", "https://example.com/x", "BBC News",
    ⟨2024, 1, 1, 0, 0, 0⟩, none, none, none⟩

/-- Counterexample to Claim C2 as stated: for the eight-character body
"abc. def" and maximum length 3, the generated summary is "abc.", whose
length 4 exceeds the maximum 3 (the loop checks the length bound before
re-appending the two-character period-space separator, and stripping
only removes the trailing space). -/
theorem generate_summary_cex :
    3 < cexNews.content.length ∧
    News.generate_summary cexNews 3 = "abc." ∧
    3 < (News.generate_summary cexNews 3).length := by
  refine ⟨by decide, ?_, by decide⟩
  decide


/-- Invariant of the sentence-accumulation loop: starting from an
accumulator that is empty or within `maxLength + 2` and
period-space-terminated, the result is empty or within `maxLength + 2`
and period-space-terminated. -/
theorem summaryBuildLoop_spec (maxLength : Nat) (sentences : List (List Char)) :
    ∀ acc : List Char,
      (acc = [] ∨ (acc.length ≤ maxLength + 2 ∧ ∃ t, acc = t ++ ['.', ' '])) →
      (summaryBuildLoop maxLength sentences acc = [] ∨
        ((summaryBuildLoop maxLength sentences acc).length ≤ maxLength + 2 ∧
         ∃ t, summaryBuildLoop maxLength sentences acc = t ++ ['.', ' '])) := by
  induction sentences with
  | nil => intro acc hacc; exact hacc
  | cons s rest ih =>
    intro acc hacc
    simp only [summaryBuildLoop]
    by_cases h : (acc ++ s).length ≤ maxLength
    · rw [if_pos h]
      apply ih
      right
      refine ⟨?_, acc ++ s, rfl⟩
      have hlen : (acc ++ s ++ ['.', ' ']).length = (acc ++ s).length + 2 := by
        simp [List.length_append]
        omega
      omega
    · rw [if_neg h]
      exact hacc

/-- The sentence-accumulation loop never shrinks a non-empty
accumulator to the empty list. -/
theorem summaryBuildLoop_ne_nil (maxLength : Nat) (sentences : List (List Char)) :
    ∀ acc : List Char, acc ≠ [] → summaryBuildLoop maxLength sentences acc ≠ [] := by
  induction sentences with
  | nil => intro acc hacc; exact hacc
  | cons s rest ih =>
    intro acc hacc
    simp only [summaryBuildLoop]
    by_cases h : (acc ++ s).length ≤ maxLength
    · rw [if_pos h]
      apply ih
      simp
    · rw [if_neg h]
      exact hacc

/-- Stripping never lengthens a list. -/
theorem pyStrip_length_le (l : List Char) : (pyStrip l).length ≤ l.length := by
  unfold pyStrip
  rw [List.length_reverse]
  have h1 := (List.dropWhile_sublist
    (l := (l.dropWhile Char.isWhitespace).reverse) Char.isWhitespace).length_le
  rw [List.length_reverse] at h1
  have h2 := (List.dropWhile_sublist (l := l) Char.isWhitespace).length_le
  omega

/-- A trailing space disappears under stripping. -/
theorem pyStrip_append_space (t : List Char) : pyStrip (t ++ [' ']) = pyStrip t := by
  unfold pyStrip
  rw [List.dropWhile_append]
  by_cases h : (t.dropWhile Char.isWhitespace).isEmpty
  · rw [if_pos h]
    rw [List.isEmpty_iff] at h
    rw [h]
    rfl
  · rw [if_neg h, List.reverse_append]
    have hrev : ([' '] : List Char).reverse = [' '] := rfl
    rw [hrev, List.singleton_append, List.dropWhile_cons_of_pos (by decide)]

/-- Stripping a list whose last character is not whitespace keeps that
character last (and the result non-empty). -/
theorem pyStrip_append_nonws (t : List Char) (c : Char) (hc : c.isWhitespace = false) :
    ∃ v, pyStrip (t ++ [c]) = v ++ [c] := by
  have hrev : ([c] : List Char).reverse = [c] := rfl
  have hd : ([c] : List Char).dropWhile Char.isWhitespace = [c] :=
    List.dropWhile_cons_of_neg (by simp [hc])
  unfold pyStrip
  rw [List.dropWhile_append]
  by_cases h : (t.dropWhile Char.isWhitespace).isEmpty
  · rw [if_pos h, hd, hrev, hd, hrev]
    exact ⟨[], rfl⟩
  · rw [if_neg h, List.reverse_append, hrev, List.singleton_append,
      List.dropWhile_cons_of_neg (by simp [hc]), List.reverse_cons]
    exact ⟨_, rfl⟩

/-- Splitting always yields at least one piece. -/
theorem splitDotSpace_ne_nil (l : List Char) : splitDotSpace l ≠ [] := by
  unfold splitDotSpace
  split
  · simp
  · split <;> simp
  · simp

/-- Stripping after a period-space suffix equals stripping after the
period alone. -/
theorem pyStrip_append_dotspace (t : List Char) :
    pyStrip (t ++ ['.', ' ']) = pyStrip (t ++ ['.']) := by
  have h := pyStrip_append_space (t ++ ['.'])
  rw [List.append_assoc t ['.'] [' ']] at h
  exact h

/-- Claim C2 (amended): a body no longer than the maximum is returned
verbatim; a longer body yields a summary of length at most the maximum
plus one (the period re-appended after the final kept sentence may
overshoot the budget by exactly one character, as the counterexample
shows); and whenever the first period-space-delimited sentence fits
within the maximum, the summary ends with a period. -/
theorem generate_summary_amended (n : News) (ml : Nat) :
    (n.content.length ≤ ml → News.generate_summary n ml = n.content) ∧
    (ml < n.content.length → (News.generate_summary n ml).length ≤ ml + 1) ∧
    (ml < n.content.length → (splitDotSpace n.content.data).headI.length ≤ ml →
      (News.generate_summary n ml).data.getLast? = some ('.' : Char)) := by
  refine ⟨?_, ?_, ?_⟩
  · intro h
    show (⟨generate_summary_chars n.content.data ml⟩ : String) = n.content
    unfold generate_summary_chars
    rw [if_pos (show n.content.data.length ≤ ml from h)]
  · intro h
    have h' : ml < n.content.data.length := h
    have hml : ¬n.content.data.length ≤ ml := by omega
    show (generate_summary_chars n.content.data ml).length ≤ ml + 1
    unfold generate_summary_chars
    rw [if_neg hml]
    rcases summaryBuildLoop_spec ml (splitDotSpace n.content.data) [] (Or.inl rfl) with
      hres | ⟨hlen, t, ht⟩
    · rw [hres]
      show (pyStrip []).length ≤ ml + 1
      simp [pyStrip]
    · rw [ht, pyStrip_append_dotspace]
      have h3 := pyStrip_length_le (t ++ ['.'])
      have h4 : (t ++ ['.']).length = t.length + 1 := by simp
      rw [ht] at hlen
      have h5 : (t ++ ['.', ' ']).length = t.length + 2 := by simp
      omega
  · intro h hhead
    have h' : ml < n.content.data.length := h
    have hml : ¬n.content.data.length ≤ ml := by omega
    show (generate_summary_chars n.content.data ml).getLast? = some ('.' : Char)
    unfold generate_summary_chars
    rw [if_neg hml]
    cases hsp : splitDotSpace n.content.data with
    | nil => exact absurd hsp (splitDotSpace_ne_nil _)
    | cons s0 ss =>
      rw [hsp] at hhead
      have hs0 : s0.length ≤ ml := hhead
      simp only [summaryBuildLoop]
      rw [if_pos (show (([] : List Char) ++ s0).length ≤ ml by simpa using hs0)]
      have hnn := summaryBuildLoop_ne_nil ml ss (([] : List Char) ++ s0 ++ ['.', ' '])
        (by simp)
      rcases summaryBuildLoop_spec ml ss (([] : List Char) ++ s0 ++ ['.', ' '])
          (Or.inr ⟨by simp; omega, ([] : List Char) ++ s0, rfl⟩) with hres | ⟨hlen, t, ht⟩
      · exact absurd hres hnn
      · rw [ht, pyStrip_append_dotspace]
        obtain ⟨v, hv⟩ := pyStrip_append_nonws t '.' (by decide)
        rw [hv]
        exact List.getLast?_concat _

/-- Witness for Claim C2 (amended): a concrete body shorter than the
maximum is returned verbatim. -/
theorem generate_summary_amended_witness :
    News.generate_summary newsA 200 = newsA.content :=
  (generate_summary_amended newsA 200).1 (by decide)

/-- Substring test on code-point lists, modelling Python `needle in hay`. -/
def containsSub (needle : List Char) : List Char → Bool
  | [] => needle.isEmpty
  | c :: rest => needle.isPrefixOf (c :: rest) || containsSub needle rest

/-- String-level substring test. -/
def strContains (hay needle : String) : Bool := containsSub needle.data hay.data

/-- A hyperlink element as the fallback link scan of
`BBCScraper._parse_search_results` sees it: anchor text and href. -/
structure Link where
  text : String
  href : String
deriving DecidableEq, Repr

/-- The parsed form of a fetched search page: what each CSS selector
would return (article elements of an abstract type) and the list of all
hyperlink elements on the page. -/
structure Page (α : Type) where
  select : String → List α
  links : List Link

/-- Outcome of the timed GET request issued by
`BBCScraper.search_adam_sandler_news`: a timeout, some other raised
exception, or a response carrying a status code and a parsed page. -/
inductive FetchOutcome (α : Type) where
  | timeout : FetchOutcome α
  | exn : String → FetchOutcome α
  | response : Nat → Page α → FetchOutcome α

/-- The ordered selector list tried by `_parse_search_results`. -/
def searchSelectors : List String :=
  ["[data-testid=\"newport-card\"]",
   "div[data-testid=\"search-results\"] article",
   ".ssrcss-1f3bvyz-Stack",
   "article",
   ".media__content"]

/-- The fixed relevance keyword set of `BBCScraper._is_relevant_link`. -/
def relevanceKeywords : List String :=
  ["adam sandler", "sandler", "comedy", "netflix", "movie", "film"]

/-- Model of Python `str.lower()`: lower-case every character. -/
def strToLower (s : String) : String := ⟨s.data.map Char.toLower⟩

/-- Model of Python `str.startswith`: the putative head is a list-level
head of the string. -/
def strStartsWith (s pre : String) : Bool := pre.data.isPrefixOf s.data

/-- Embedding of `BBCScraper._is_relevant_link`: keep a link whose
lower-cased anchor text or href contains one of the keywords. -/
def is_relevant_link (text href : String) : Bool :=
  relevanceKeywords.any fun k =>
    strContains (strToLower text) k || strContains (strToLower href) k

/-- The BBC base URL configured on the scraper. -/
def bbcBaseUrl : String := "https://www.bbc.com"

/-- Relative hrefs (leading slash) are resolved against the base URL via
`urljoin`; absolute hrefs pass through. -/
def resolveHref (href : String) : String :=
  if strStartsWith href "/" then bbcBaseUrl ++ href else href

/-- Embedding of `BBCScraper._create_news_from_link`: reject anchors with
fewer than ten characters of text, otherwise build a record whose body is
the anchor text (any construction error is caught and yields `None`). -/
def create_news_from_link (now : PyDateTime) (link : Link) : Option News :=
  let title := link.text
  if title.length < 10 then none
  else
    match mkNews title title (resolveHref link.href) "BBC News" now none none none with
    | Except.ok n => some n
    | Except.error _ => none

/-- The enrichment policy of the selector path: replace the body only
when the fetched full body is non-empty and strictly longer. -/
def enrichStrict (getContent : String → Option String) (news : News) : News :=
  match getContent news.url with
  | some full =>
      if 0 < full.length ∧ news.content.length < full.length then
        { news with content := full }
      else news
  | none => news

/-- The enrichment policy of the link-scan fallback path: replace the
body whenever the fetch returns any non-empty text, with no length
comparison. -/
def enrichAny (getContent : String → Option String) (news : News) : News :=
  match getContent news.url with
  | some full => if full.length = 0 then news else { news with content := full }
  | none => news

/-- The fallback link-scan loop of `_parse_search_results`: for each
relevant link, synthesize a record and overwrite its body with the
fetched article content whenever that fetch returns non-empty text. -/
def fallbackLoop (getContent : String → Option String) (now : PyDateTime) :
    List Link → List News
  | [] => []
  | link :: rest =>
      if is_relevant_link link.text link.href then
        match create_news_from_link now link with
        | some news =>
            (match getContent news.url with
              | some full => if full.length = 0 then news else { news with content := full }
              | none => news) :: fallbackLoop getContent now rest
        | none => fallbackLoop getContent now rest
      else fallbackLoop getContent now rest

/-- The selector-path loop of `_parse_search_results`: extract a record
from each article element (an exception or a `None` skips the element),
replace the body only by strictly longer fetched content, and keep the
record if the relevance predicate accepts it. -/
def articleLoop {α : Type} (extract : α → Except String (Option News))
    (getContent : String → Option String) : List α → List News
  | [] => []
  | a :: rest =>
      match extract a with
      | Except.error _ => articleLoop extract getContent rest
      | Except.ok none => articleLoop extract getContent rest
      | Except.ok (some news) =>
          let enriched :=
            match getContent news.url with
            | some full =>
                if 0 < full.length ∧ news.content.length < full.length then
                  { news with content := full }
                else news
            | none => news
          if enriched.is_relevant_to_adam_sandler then
            enriched :: articleLoop extract getContent rest
          else articleLoop extract getContent rest

/-- The selector cascade: the first selector returning a non-empty
element list wins; if all return empty the result is empty. -/
def firstSelectorMatch {α : Type} (select : String → List α) : List String → List α
  | [] => []
  | sel :: rest =>
      let found := select sel
      if found.isEmpty then firstSelectorMatch select rest else found

/-- Embedding of `BBCScraper._parse_search_results`: try the selector
cascade; on success run the selector-path loop over the first
`max_results` article elements, otherwise run the link-scan fallback
over the first `max_results` links; cap the output at `max_results`. -/
def parse_search_results {α : Type} (page : Page α) (maxResults : Nat)
    (extract : α → Except String (Option News)) (getContent : String → Option String)
    (now : PyDateTime) : List News :=
  let articles := firstSelectorMatch page.select searchSelectors
  if articles.isEmpty then
    (fallbackLoop getContent now (page.links.take maxResults)).take maxResults
  else
    (articleLoop extract getContent (articles.take maxResults)).take maxResults

/-- The `try` block of `BBCScraper.search_adam_sandler_news`: a timeout
or other exception propagates; a non-200 status returns the empty list;
a 200 response is parsed. -/
def searchBody {α : Type} (outcome : FetchOutcome α) (maxResults : Nat)
    (extract : α → Except String (Option News)) (getContent : String → Option String)
    (now : PyDateTime) : Except String (List News) :=
  match outcome with
  | FetchOutcome.timeout => Except.error "asyncio.TimeoutError"
  | FetchOutcome.exn msg => Except.error msg
  | FetchOutcome.response status page =>
      if status ≠ 200 then Except.ok []
      else Except.ok (parse_search_results page maxResults extract getContent now)

/-- Embedding of `BBCScraper.search_adam_sandler_news` with its
`except` clauses: every raised error is caught and degraded to the
empty list. -/
def search_adam_sandler_news {α : Type} (outcome : FetchOutcome α) (maxResults : Nat)
    (extract : α → Except String (Option News)) (getContent : String → Option String)
    (now : PyDateTime) : List News :=
  match searchBody outcome maxResults extract getContent now with
  | Except.error _ => []
  | Except.ok l => l

/-- Claim C4: the search operation never lets an error reach its caller:
whenever the request body raises (timeout or any other exception) the
result is the empty list, a non-200 status yields the empty list, and a
200 response yields exactly the parse result (a plain list, so parse
failures surface as an empty or partial list, never as an exception). -/
theorem search_never_raises {α : Type} (outcome : FetchOutcome α) (maxResults : Nat)
    (extract : α → Except String (Option News)) (getContent : String → Option String)
    (now : PyDateTime) :
    (∀ e, searchBody outcome maxResults extract getContent now = Except.error e →
      search_adam_sandler_news outcome maxResults extract getContent now = []) ∧
    (outcome = FetchOutcome.timeout →
      search_adam_sandler_news outcome maxResults extract getContent now = []) ∧
    (∀ msg, outcome = FetchOutcome.exn msg →
      search_adam_sandler_news outcome maxResults extract getContent now = []) ∧
    (∀ status page, outcome = FetchOutcome.response status page → status ≠ 200 →
      search_adam_sandler_news outcome maxResults extract getContent now = []) ∧
    (∀ page, outcome = FetchOutcome.response 200 page →
      search_adam_sandler_news outcome maxResults extract getContent now =
        parse_search_results page maxResults extract getContent now) := by
  refine ⟨fun e he => ?_, fun h => ?_, fun msg h => ?_, fun status page h hs => ?_,
    fun page h => ?_⟩
  · unfold search_adam_sandler_news
    rw [he]
  · subst h; rfl
  · subst h; rfl
  · subst h
    simp [search_adam_sandler_news, searchBody, hs]
  · subst h
    simp [search_adam_sandler_news, searchBody]

/-- Witness for Claim C4: a concrete timed-out request yields the empty
list. -/
theorem search_never_raises_witness :
    search_adam_sandler_news (FetchOutcome.timeout : FetchOutcome Unit) 10
      (fun _ => Except.ok none) (fun _ => none) ⟨2024, 1, 1, 0, 0, 0⟩ = [] :=
  (search_never_raises (FetchOutcome.timeout : FetchOutcome Unit) 10
    (fun _ => Except.ok none) (fun _ => none) ⟨2024, 1, 1, 0, 0, 0⟩).2.1 rfl

/-- A relevant link whose anchor text is long. -/
def cexLink : Link := ⟨"Adam Sandler announces new movie", "/news/entertainment-1"⟩

/-- A page on which every selector fails, forcing the fallback path. -/
def cexPage : Page Unit := ⟨fun _ => [], [cexLink]⟩

/-- An article-content fetch that returns a short non-empty body. -/
def cexGetContent : String → Option String := fun _ => some "Hi."

/-- Fixed wall-clock time for the counterexample. -/
def cexNow : PyDateTime := ⟨2024, 1, 1, 0, 0, 0⟩

/-- Extractor used where the selector path is never taken. -/
def cexExtract : Unit → Except String (Option News) := fun _ => Except.ok none

/-- Counterexample to Claim C5 as stated: on the link-scan fallback path
the snippet body (the 32-character anchor text) is replaced by the
4-character fetched body — the code overwrites with any non-empty fetch
result and never compares lengths on this path. -/
theorem enrichment_cex :
    (parse_search_results cexPage 10 cexExtract cexGetContent cexNow).map News.content =
      ["Hi."] ∧
    (parse_search_results cexPage 10 cexExtract cexGetContent cexNow).map News.title =
      ["Adam Sandler announces new movie"] ∧
    ("Hi." : String).length < ("Adam Sandler announces new movie" : String).length := by
  exact ⟨by decide, by decide, by decide⟩

/-- The strict policy when the article fetch fails. -/
theorem enrichStrict_none (getContent : String → Option String) (news : News)
    (h : getContent news.url = none) : enrichStrict getContent news = news := by
  simp only [enrichStrict, h]

/-- The strict policy when the article fetch returns text. -/
theorem enrichStrict_some (getContent : String → Option String) (news : News)
    (full : String) (h : getContent news.url = some full) :
    enrichStrict getContent news =
      if 0 < full.length ∧ news.content.length < full.length then
        { news with content := full }
      else news := by
  simp only [enrichStrict, h]

/-- The records the selector-path loop extracts before enrichment and
filtering: those article elements whose extraction returns a record. -/
def extractedNews {α : Type} (extract : α → Except String (Option News))
    (l : List α) : List News :=
  l.filterMap fun a =>
    match extract a with
    | Except.ok (some n) => some n
    | _ => none

/-- Claim C5 (amended): on the selector path the body is replaced only
by strictly longer non-empty fetched content (the loop equals mapping
the strict policy over the extracted records, the strict policy never
shortens a body, and any body change comes from a strictly longer
fetch); on the link-scan fallback path the body is replaced by any
non-empty fetched content regardless of length. -/
theorem enrichment_policy {α : Type} (extract : α → Except String (Option News))
    (getContent : String → Option String) (now : PyDateTime) :
    (∀ l : List α, articleLoop extract getContent l =
      (extractedNews extract l).map (enrichStrict getContent)) ∧
    (∀ news : News, news.content.length ≤ (enrichStrict getContent news).content.length) ∧
    (∀ news : News, (enrichStrict getContent news).content ≠ news.content →
      ∃ full, getContent news.url = some full ∧ news.content.length < full.length ∧
        (enrichStrict getContent news).content = full) ∧
    (∀ links : List Link, fallbackLoop getContent now links =
      links.filterMap fun lk =>
        if is_relevant_link lk.text lk.href then
          (create_news_from_link now lk).map (enrichAny getContent)
        else none) := by
  refine ⟨fun l => ?_, fun news => ?_, fun news hne => ?_, fun links => ?_⟩
  · induction l with
    | nil => rfl
    | cons a rest ih =>
      simp only [articleLoop, extractedNews, List.filterMap_cons]
      cases hx : extract a with
      | error e => simpa [extractedNews] using ih
      | ok o =>
        cases o with
        | none => simpa [extractedNews] using ih
        | some news =>
          simp only [News.is_relevant_to_adam_sandler, if_true, List.map_cons]
          refine congrArg₂ _ ?_ ?_
          · rw [enrichStrict]
          · simpa [extractedNews] using ih
  · cases hg : getContent news.url with
    | none =>
      rw [enrichStrict_none getContent news hg]
    | some full =>
      rw [enrichStrict_some getContent news full hg]
      by_cases hc : 0 < full.length ∧ news.content.length < full.length
      · rw [if_pos hc]
        exact Nat.le_of_lt hc.2
      · rw [if_neg hc]
  · cases hg : getContent news.url with
    | none =>
      rw [enrichStrict_none getContent news hg] at hne
      exact absurd rfl hne
    | some full =>
      rw [enrichStrict_some getContent news full hg] at hne
      by_cases hc : 0 < full.length ∧ news.content.length < full.length
      · have hval : enrichStrict getContent news = { news with content := full } := by
          rw [enrichStrict_some getContent news full hg, if_pos hc]
        exact ⟨full, rfl, hc.2, by rw [hval]⟩
      · rw [if_neg hc] at hne
        exact absurd rfl hne
  · induction links with
    | nil => rfl
    | cons lk rest ih =>
      simp only [fallbackLoop, List.filterMap_cons]
      by_cases hrel : is_relevant_link lk.text lk.href
      · rw [if_pos hrel]
        cases hcr : create_news_from_link now lk with
        | none => simp [hrel, hcr, ih]
        | some news => simp [hrel, hcr, ih, enrichAny]
      · rw [if_neg hrel]
        simp [hrel, ih]

/-- Record with a two-character body used to exercise the strict
enrichment policy. -/
def shortNews : News :=
  ⟨"Adam Sandler short note", "Hi", "https://example.com/s", "BBC News",
    ⟨2024, 1, 1, 0, 0, 0⟩, none, none, none⟩

/-- Witness for Claim C5 (amended): at a concrete record whose body the
strict policy does change, the fetched body is strictly longer and is
the new body. -/
theorem enrichment_policy_witness :
    ∃ full, cexGetContent shortNews.url = some full ∧
      shortNews.content.length < full.length ∧
      (enrichStrict cexGetContent shortNews).content = full :=
  (enrichment_policy (α := Unit) cexExtract cexGetContent cexNow).2.2.1 shortNews
    (by decide)
